import Mathlib

/-!
# Verification of the `ccore` ledger (`src/blockchain.rs`)

Shallow embedding of the single-node ledger state machine: a chain of
blocks, a pool of pending transactions, and a UTXO set of spendable output
hashes, with the three state-transition operations
`add_transaction_to_pool`, `create_candidate_block` and
`aggregate_mined_block`, plus the internal `verify_transaction`.

The ledger logic itself (`blockchain.rs`) is translated line by line.
The external collaborators it consumes (`TxOutput`/`Transaction`/`Block`
data contracts, `Hashable::hash`, `check_difficulty`, `now`,
`Block::new`) are not part of the given source tree and are modelled
from the specification document's data model (§3) and interface list
(§6); each such definition says so in its doc comment.

Conventions of the embedding:
* Rust `f64` amounts are modelled as exact rationals `ℚ`.
* `Hash` (`Vec<u8>` in the source) is modelled as `List Nat`; the empty
  list is the sentinel empty hash.
* `HashSet<Hash>` is modelled as `Finset Hash`.
* `&mut self` methods are modelled as functions from the ledger state to
  a pair of the returned `Result` and the post-call state, so that the
  state after an early `return Err(..)` is an explicit object of study.
* the external clock `now()` is passed as an explicit argument.
-/

/-- Hash is an opaque comparable byte identifier (`Vec<u8>` in the source);
modelled as a list of naturals, with `[]` the sentinel empty hash. -/
abbrev Hash : Type := List Nat

/-- Modelled from the spec: a spendable output
`{ address: string-like identifier, value: numeric amount }` (§3). -/
structure TxOutput where
  address : String
  value : ℚ
deriving DecidableEq, Repr

/-- Modelled from the spec: `Hashable::hash` on `TxOutput` is a
deterministic content hash, a pure function of its fields (§3, §6); the
concrete encoding below stands in for the external hash function. -/
def TxOutput.hash (o : TxOutput) : Hash :=
  (o.address.toList.map Char.toNat) ++ [o.value.num.toNat, o.value.den]

/-- Modelled from the spec: a transaction
`{ inputs, outputs : ordered sequence of TxOutput, timestamp }` (§3). -/
structure Transaction where
  inputs : List TxOutput
  outputs : List TxOutput
  timestamp : Nat
deriving DecidableEq, Repr

/-- Modelled from the spec: a transaction is a coinbase iff `inputs` is
empty (§3). -/
def Transaction.is_coinbase (t : Transaction) : Bool :=
  t.inputs.isEmpty

/-- Modelled from the spec: a transaction is spendable iff
`sum(inputs.value) >= sum(outputs.value)` (§3). -/
def Transaction.is_spendable (t : Transaction) : Bool :=
  decide ((t.outputs.map TxOutput.value).sum ≤ (t.inputs.map TxOutput.value).sum)

/-- Modelled from the spec: `input_hashes()` = hashes of each input
`TxOutput`, in input order (§3). -/
def Transaction.input_hashes (t : Transaction) : List Hash :=
  t.inputs.map TxOutput.hash

/-- Modelled from the spec: `output_hashes()` = hashes of each output
`TxOutput`, in output order (§3). -/
def Transaction.output_hashes (t : Transaction) : List Hash :=
  t.outputs.map TxOutput.hash

/-- Modelled from the spec: a block
`{ index, timestamp, previous_hash, transactions, hash, difficulty }`
(§3); `hash` is established by the external constructor/miner,
`difficulty` (a `U256` target in the source) is modelled as `Nat`, and
`index` (a `u32` in the source) is modelled as `Nat` with an explicit
`% 2^32` at the one place the ledger computes with it
(`create_candidate_block`). -/
structure Block where
  index : Nat
  timestamp : Nat
  previous_hash : Hash
  transactions : List Transaction
  hash : Hash
  difficulty : Nat
deriving DecidableEq, Repr

/-- Content encoding of a transaction, used by the modelled block hash. -/
def Transaction.content_hash (t : Transaction) : Hash :=
  t.inputs.flatMap TxOutput.hash ++ t.outputs.flatMap TxOutput.hash ++ [t.timestamp]

/-- Modelled from the spec: the block content hash computed by the
external `Block::new` constructor — a deterministic pure function of the
block's fields (§6); the concrete encoding stands in for the external
hash function. -/
def block_content_hash (index : Nat) (timestamp : Nat) (previous_hash : Hash)
    (transactions : List Transaction) (difficulty : Nat) : Hash :=
  [index, timestamp, difficulty] ++ previous_hash
    ++ transactions.flatMap Transaction.content_hash

/-- Modelled from the spec:
`Block::new(index, timestamp, previous_hash, transactions, difficulty)`
returns a fully formed block whose `hash` is computed by the constructor
(§6). -/
def Block.new (index : Nat) (timestamp : Nat) (previous_hash : Hash)
    (transactions : List Transaction) (difficulty : Nat) : Block :=
  { index := index
    timestamp := timestamp
    previous_hash := previous_hash
    transactions := transactions
    hash := block_content_hash index timestamp previous_hash transactions difficulty
    difficulty := difficulty }

/-- Interpretation of a hash as a large integer, used by the modelled
proof-of-work predicate. -/
def hash_as_nat (h : Hash) : Nat :=
  h.foldl (fun acc b => acc * 256 + b % 256) 0

/-- Modelled from the spec: `check_difficulty(hash, difficulty)` is the
proof-of-work acceptance predicate, a numeric comparison of the hash
interpreted as a large integer against a target derived from the
difficulty (§6). -/
def check_difficulty (h : Hash) (difficulty : Nat) : Bool :=
  decide (hash_as_nat h ≤ difficulty)

/-- Error taxonomy of `blockchain.rs` (`BlockChainError`), each variant
carrying a human-readable message. -/
inductive BlockChainError where
  | ProofOfWorkError (msg : String)
  | NotACoinBaseError (msg : String)
  | InvalidTransactionError (msg : String)
  | InsufficientFundsError (msg : String)
  | InputNotSpendableError (msg : String)
  | DoubleSpendingError (msg : String)
deriving DecidableEq, Repr

/-- Ledger state of `blockchain.rs`: the chain, the FIFO transaction
pool, and the UTXO set (`HashSet<Hash>`, modelled as a `Finset`). -/
structure Blockchain where
  blocks : List Block
  transaction_pool : List Transaction
  unspent_output : Finset Hash
deriving DecidableEq

/-- `Blockchain::new()`: empty chain, empty pool, empty UTXO set. -/
def Blockchain.new : Blockchain :=
  { blocks := [], transaction_pool := [], unspent_output := ∅ }

/-- `Blockchain::len()`: the chain length. -/
def Blockchain.len (bc : Blockchain) : Nat :=
  bc.blocks.length

/-- The set of hashes referenced as inputs by transactions currently in
the pool (`tx_pool_hashes` computed inside `verify_transaction`,
lines 148–152). -/
def Blockchain.pool_input_hashes (bc : Blockchain) : Finset Hash :=
  (bc.transaction_pool.flatMap Transaction.input_hashes).toFinset

/-- Loop of `verify_transaction` over the transaction's input hashes
(lines 142–158): for each hash in order, first the UTXO-membership check,
then the pool double-spend check. -/
def Blockchain.check_input_hashes (bc : Blockchain) : List Hash → Except BlockChainError Unit
  | [] => Except.ok ()
  | h :: rest =>
    if h ∉ bc.unspent_output then
      Except.error (BlockChainError.InputNotSpendableError "Input is not spendable.")
    else if h ∈ bc.pool_input_hashes then
      Except.error (BlockChainError.DoubleSpendingError "Double spending attempt.")
    else
      bc.check_input_hashes rest

/-- `Blockchain::verify_transaction` (lines 133–160): spendability check,
then the per-input-hash loop. Read-only. -/
def Blockchain.verify_transaction (bc : Blockchain) (t : Transaction) :
    Except BlockChainError Unit :=
  if !t.is_spendable then
    Except.error (BlockChainError.InsufficientFundsError "Transaction output is grater than input.")
  else
    bc.check_input_hashes t.input_hashes

/-- `Blockchain::add_transaction_to_pool` (lines 37–53): verify against
current state, then push onto the pool; on error return with the state
untouched. -/
def Blockchain.add_transaction_to_pool (bc : Blockchain) (transaction : Transaction) :
    Except BlockChainError Unit × Blockchain :=
  match bc.verify_transaction transaction with
  | Except.error e => (Except.error e, bc)
  | Except.ok _ =>
    (Except.ok (), { bc with transaction_pool := bc.transaction_pool ++ [transaction] })

/-- `Blockchain::create_candidate_block` (lines 55–95): determine index
and previous hash from the last accepted block, build the coinbase
paying the fixed 50.0 reward, drain the first
`min(pool_size, transactions_count)` pool transactions behind it, and
return the block built by the external `Block::new`. The external clock
`now()` is the explicit argument `time`. `candidate_index` is a `u32` in
the source (line 61), so the successor computed at line 89 is taken
modulo `2^32`: release-mode wrapping semantics of `candidate_index + 1`. -/
def Blockchain.create_candidate_block (bc : Blockchain) (transactions_count : Nat)
    (miner_address : String) (difficulty : Nat) (time : Nat) : Block × Blockchain :=
  let candidate_index : Nat :=
    match bc.blocks.getLast? with
    | some latest_block => latest_block.index
    | none => 0
  let previous_hash : Hash :=
    match bc.blocks.getLast? with
    | some latest_block => latest_block.hash
    | none => []
  let block_transaction_count : Nat := min bc.transaction_pool.length transactions_count
  let coinbase : Transaction :=
    { inputs := []
      outputs := [{ address := miner_address, value := 50 }]
      timestamp := time }
  let transactions : List Transaction :=
    coinbase :: bc.transaction_pool.take block_transaction_count
  (Block.new ((candidate_index + 1) % 4294967296) time previous_hash transactions difficulty,
   { bc with transaction_pool := bc.transaction_pool.drop block_transaction_count })

/-- Loop of `aggregate_mined_block` over the non-coinbase transactions
(lines 115–122): verify each against the pre-call state and accumulate
their input hashes (`output_spent`) and output hashes (`output_created`)
in order; the first verification error aborts the whole loop. -/
def Blockchain.process_block_transactions (bc : Blockchain) :
    List Transaction → Except BlockChainError (List Hash × List Hash)
  | [] => Except.ok ([], [])
  | t :: rest =>
    match bc.verify_transaction t with
    | Except.error e => Except.error e
    | Except.ok _ =>
      match bc.process_block_transactions rest with
      | Except.error e => Except.error e
      | Except.ok (spent, created) =>
        Except.ok (t.input_hashes ++ spent, t.output_hashes ++ created)

/-- `Blockchain::aggregate_mined_block` (lines 97–131): proof-of-work
gate, `split_first` on the transaction list (an empty list skips the
whole body and returns `Ok(())`), coinbase check, verification loop,
then the atomic mutation: `retain` drops every spent hash from the UTXO
set, `extend` adds the created hashes (coinbase outputs first), and the
block is pushed onto the chain. -/
def Blockchain.aggregate_mined_block (bc : Blockchain) (block : Block) :
    Except BlockChainError Unit × Blockchain :=
  if !check_difficulty block.hash block.difficulty then
    (Except.error (BlockChainError.ProofOfWorkError "Block is not correctly mined"), bc)
  else
    match block.transactions with
    | [] => (Except.ok (), bc)
    | coinbase :: transactions =>
      if !coinbase.is_coinbase then
        (Except.error (BlockChainError.NotACoinBaseError "First transaction in block must be a coinbase."), bc)
      else
        match bc.process_block_transactions transactions with
        | Except.error e => (Except.error e, bc)
        | Except.ok (output_spent, output_created) =>
          (Except.ok (),
           { bc with
             unspent_output :=
               (bc.unspent_output.filter (fun output => output ∉ output_spent))
                 ∪ (coinbase.output_hashes ++ output_created).toFinset
             blocks := bc.blocks ++ [block] })

deriving instance DecidableEq for Except

/-! ## Concrete ledger runs used as witnesses and counterexamples -/

/-- A concrete output paying a miner 50. -/
def oM : TxOutput := { address := "M", value := 50 }

/-- A concrete coinbase transaction creating `oM`. -/
def cb1 : Transaction := { inputs := [], outputs := [oM], timestamp := 0 }

/-- A regularly mined block containing only the coinbase `cb1`; its empty
hash satisfies any difficulty target. -/
def blockB1 : Block :=
  { index := 1, timestamp := 0, previous_hash := [], transactions := [cb1]
    hash := [], difficulty := 0 }

/-- The ledger state after accepting `blockB1` from the initial state. -/
def bc1 : Blockchain := (Blockchain.new.aggregate_mined_block blockB1).2

/-- A transaction spending `oM` and paying the full 50 to address `A`. -/
def txSpend1 : Transaction :=
  { inputs := [oM], outputs := [{ address := "A", value := 50 }], timestamp := 0 }

/-- A second transaction spending the same output `oM`, paying address `B`. -/
def txSpend2 : Transaction :=
  { inputs := [oM], outputs := [{ address := "B", value := 50 }], timestamp := 0 }

/-- A second coinbase transaction. -/
def cb2 : Transaction := { inputs := [], outputs := [oM], timestamp := 1 }

/-- A block whose two non-coinbase transactions both spend `oM`. -/
def blockB2 : Block :=
  { index := 2, timestamp := 1, previous_hash := [], transactions := [cb2, txSpend1, txSpend2]
    hash := [], difficulty := 0 }

/-- A block with an empty transaction list and a hash passing its
difficulty target. -/
def blockEmptyTx : Block :=
  { index := 1, timestamp := 0, previous_hash := [], transactions := [], hash := []
    difficulty := 0 }

/-- A coinbase-only block whose `previous_hash` is garbage: it matches no
block hash and is not the empty sentinel. -/
def blockGarbagePrev : Block :=
  { index := 1, timestamp := 0, previous_hash := [9], transactions := [cb1], hash := []
    difficulty := 0 }

/-- A coinbase-only block carrying the largest `u32` index,
`4294967295 = 2^32 - 1`. `aggregate_mined_block` never validates `index`
(or `previous_hash`), so this block is accepted from the initial state
as it stands. -/
def blockMaxIndex : Block :=
  { index := 4294967295, timestamp := 0, previous_hash := [], transactions := [cb1]
    hash := [], difficulty := 0 }

/-- The reachable ledger state after accepting `blockMaxIndex` from the
initial state: its chain tip has index `u32::MAX`. -/
def bcMax : Blockchain := (Blockchain.new.aggregate_mined_block blockMaxIndex).2

/-- A transaction spending an output that is not in the UTXO set of the
initial state. -/
def txBadInput : Transaction := { inputs := [oM], outputs := [], timestamp := 0 }

/-- A coinbase-only block whose hash `[1]` fails the difficulty target 0. -/
def blockBadPoW : Block :=
  { index := 1, timestamp := 0, previous_hash := [], transactions := [cb1], hash := [1]
    difficulty := 0 }

/-- A transaction creating more value than it consumes. -/
def txInsuff : Transaction :=
  { inputs := [], outputs := [{ address := "X", value := 1 }], timestamp := 0 }

/-- A trivial transaction with no inputs and no outputs; it passes every
check of `verify_transaction`. -/
def txEmpty : Transaction := { inputs := [], outputs := [], timestamp := 0 }

/-! ## Helper lemmas -/

/-- When the verification loop of `aggregate_mined_block` succeeds, the
accumulated `output_spent` list is exactly the concatenation of the input
hashes of the processed transactions in order, and `output_created` is
the concatenation of their output hashes. -/
theorem process_block_transactions_ok (bc : Blockchain) (ts : List Transaction)
    (spent created : List Hash)
    (h : bc.process_block_transactions ts = Except.ok (spent, created)) :
    spent = ts.flatMap Transaction.input_hashes
      ∧ created = ts.flatMap Transaction.output_hashes := by
  induction ts generalizing spent created with
  | nil =>
    simp [Blockchain.process_block_transactions] at h
    simp [h.1, h.2]
  | cons t rest ih =>
    rw [Blockchain.process_block_transactions] at h
    cases hv : bc.verify_transaction t with
    | error e => rw [hv] at h; simp at h
    | ok u =>
      rw [hv] at h
      cases hp : bc.process_block_transactions rest with
      | error e => rw [hp] at h; simp at h
      | ok pr =>
        obtain ⟨s, c⟩ := pr
        rw [hp] at h
        simp only [Except.ok.injEq, Prod.mk.injEq] at h
        obtain ⟨hs, hc⟩ := ih s c hp
        simp [← h.1, ← h.2, hs, hc]

/-! ## Claims -/

/-- C1: whenever `aggregate_mined_block` succeeds on a block with a
non-empty transaction list, the new `unspent_output` set equals the old
set minus the input hashes of all non-coinbase transactions of the
block, then united with the output hashes of the coinbase transaction
and of all other transactions (remove-then-add), and the block is
appended as the new last element of `blocks`. -/
theorem aggregate_success_utxo_update (bc : Blockchain) (block : Block)
    (coinbase : Transaction) (rest : List Transaction)
    (htx : block.transactions = coinbase :: rest)
    (hok : (bc.aggregate_mined_block block).1 = Except.ok ()) :
    (bc.aggregate_mined_block block).2.unspent_output
        = bc.unspent_output.filter
            (fun output => output ∉ rest.flatMap Transaction.input_hashes)
          ∪ (coinbase.output_hashes ++ rest.flatMap Transaction.output_hashes).toFinset
      ∧ (bc.aggregate_mined_block block).2.blocks = bc.blocks ++ [block] := by
  unfold Blockchain.aggregate_mined_block at hok ⊢
  rw [htx] at hok ⊢
  cases hd : check_difficulty block.hash block.difficulty with
  | false => simp [hd] at hok
  | true =>
    simp only [hd, Bool.not_true, Bool.false_eq_true, if_false] at hok ⊢
    cases hcb : coinbase.is_coinbase with
    | false => simp [hcb] at hok
    | true =>
      simp only [hcb, Bool.not_true, Bool.false_eq_true, if_false] at hok ⊢
      cases hp : bc.process_block_transactions rest with
      | error e => rw [hp] at hok; simp at hok
      | ok pr =>
        obtain ⟨spent, created⟩ := pr
        obtain ⟨hs, hc⟩ := process_block_transactions_ok bc rest spent created hp
        simp [hs, hc]

/-- C1 witness: accepting the coinbase-only block `blockB1` from the
initial state adds exactly the coinbase output hashes to the UTXO set
and appends the block. -/
theorem aggregate_success_utxo_update_witness :
    (Blockchain.new.aggregate_mined_block blockB1).2.unspent_output
        = Blockchain.new.unspent_output.filter
            (fun output => output ∉ ([] : List Transaction).flatMap Transaction.input_hashes)
          ∪ (cb1.output_hashes ++ ([] : List Transaction).flatMap Transaction.output_hashes).toFinset
      ∧ (Blockchain.new.aggregate_mined_block blockB1).2.blocks
          = Blockchain.new.blocks ++ [blockB1] :=
  aggregate_success_utxo_update Blockchain.new blockB1 cb1 [] rfl
    (by with_unfolding_all decide)

/-- C2: the no-double-spend invariant fails on the code. In a state
reachable from `Blockchain::new()` in one accepted block (`blockB1`,
which puts `oM.hash` into the UTXO set), `aggregate_mined_block`
accepts `blockB2`, two of whose own distinct non-coinbase transactions
both reference `oM.hash` as an input: each is verified against the
pre-block UTXO set and the pool only, never against the other
transactions of the same block. -/
theorem intra_block_double_spend_accepted :
    (Blockchain.new.aggregate_mined_block blockB1).1 = Except.ok ()
    ∧ (bc1.aggregate_mined_block blockB2).1 = Except.ok ()
    ∧ blockB2 ∈ (bc1.aggregate_mined_block blockB2).2.blocks
    ∧ txSpend1 ∈ blockB2.transactions.drop 1
    ∧ txSpend2 ∈ blockB2.transactions.drop 1
    ∧ txSpend1 ≠ txSpend2
    ∧ oM.hash ∈ txSpend1.input_hashes
    ∧ oM.hash ∈ txSpend2.input_hashes := by
  with_unfolding_all decide

/-- C3: atomicity on failure. Whenever `add_transaction_to_pool` or
`aggregate_mined_block` returns an error, the post-call ledger state
(blocks, transaction pool and UTXO set) is exactly the pre-call state. -/
theorem failed_operations_leave_state_unchanged (bc : Blockchain) (t : Transaction)
    (block : Block) :
    (∀ e, (bc.add_transaction_to_pool t).1 = Except.error e
      → (bc.add_transaction_to_pool t).2 = bc)
    ∧ (∀ e, (bc.aggregate_mined_block block).1 = Except.error e
      → (bc.aggregate_mined_block block).2 = bc) := by
  constructor
  · intro e he
    unfold Blockchain.add_transaction_to_pool at he ⊢
    cases hv : bc.verify_transaction t with
    | error e2 => simp [hv]
    | ok u => simp [hv] at he
  · intro e he
    unfold Blockchain.aggregate_mined_block at he ⊢
    cases hd : check_difficulty block.hash block.difficulty with
    | false => simp [hd]
    | true =>
      simp only [hd, Bool.not_true, Bool.false_eq_true, if_false] at he ⊢
      cases htx : block.transactions with
      | nil => rw [htx] at he
      | cons cb rest =>
        rw [htx] at he
        cases hcb : cb.is_coinbase with
        | false => simp [hcb]
        | true =>
          simp only [hcb, Bool.not_true, Bool.false_eq_true, if_false] at he ⊢
          cases hp : bc.process_block_transactions rest with
          | error e2 => simp [hp]
          | ok pr => obtain ⟨s, c⟩ := pr; rw [hp] at he; simp at he

/-- C3 witness: a transaction spending a hash absent from the UTXO set
leaves the initial state unchanged, and a block failing the
proof-of-work check leaves it unchanged as well. -/
theorem failed_operations_leave_state_unchanged_witness :
    (Blockchain.new.add_transaction_to_pool txBadInput).2 = Blockchain.new
    ∧ (Blockchain.new.aggregate_mined_block blockBadPoW).2 = Blockchain.new :=
  ⟨(failed_operations_leave_state_unchanged Blockchain.new txBadInput blockBadPoW).1
      (BlockChainError.InputNotSpendableError "Input is not spendable.")
      (by with_unfolding_all decide),
   (failed_operations_leave_state_unchanged Blockchain.new txBadInput blockBadPoW).2
      (BlockChainError.ProofOfWorkError "Block is not correctly mined")
      (by with_unfolding_all decide)⟩

/-- C4: the claim that an empty transaction list yields
`NotACoinBaseError` fails on the code. `split_first` on an empty list
skips the whole body, so `aggregate_mined_block` on `blockEmptyTx`
(empty transaction list, hash passing its difficulty) returns `Ok(())`
and leaves the state untouched instead of rejecting the block with
`NotACoinBaseError`. -/
theorem empty_block_accepted_without_error :
    blockEmptyTx.transactions = []
    ∧ check_difficulty blockEmptyTx.hash blockEmptyTx.difficulty = true
    ∧ Blockchain.new.aggregate_mined_block blockEmptyTx = (Except.ok (), Blockchain.new) := by
  with_unfolding_all decide

/-- C5 counterexample: the chain-linkage invariant does not hold for
reachable states. From `Blockchain::new()`, `aggregate_mined_block`
accepts `blockGarbagePrev`, whose `previous_hash` is `[9]`: the
resulting reachable state has a first block whose `previous_hash` is
not the sentinel empty hash (and matches no prior block), because
`aggregate_mined_block` never inspects `previous_hash`. -/
theorem chain_linkage_not_enforced :
    (Blockchain.new.aggregate_mined_block blockGarbagePrev).1 = Except.ok ()
    ∧ (Blockchain.new.aggregate_mined_block blockGarbagePrev).2.blocks = [blockGarbagePrev]
    ∧ blockGarbagePrev.previous_hash ≠ [] := by
  with_unfolding_all decide

/-- C5 as amended: chain linkage is established at candidate creation,
not checked at acceptance. `create_candidate_block` returns a block
whose `previous_hash` equals the hash of the last element of `blocks`
(or the sentinel empty hash on an empty chain); `aggregate_mined_block`
performs no linkage check of its own. -/
theorem candidate_block_links_to_chain_tip (bc : Blockchain) (transactions_count : Nat)
    (miner_address : String) (difficulty time : Nat) :
    (bc.create_candidate_block transactions_count miner_address difficulty time).1.previous_hash
      = match bc.blocks.getLast? with
        | some latest_block => latest_block.hash
        | none => [] := rfl

/-- C6 counterexample: the candidate index is not always the last
accepted block's index plus one, because the source computes it in
`u32`. The state `bcMax` — reachable from `Blockchain::new()` in one
accepted block, since `aggregate_mined_block` never validates `index` —
has chain tip `blockMaxIndex` with index `u32::MAX = 4294967295`; there
`create_candidate_block` returns a block of index `0`, not
`4294967295 + 1`. -/
theorem candidate_index_wraps_at_u32_max :
    (Blockchain.new.aggregate_mined_block blockMaxIndex).1 = Except.ok ()
    ∧ bcMax.blocks.getLast? = some blockMaxIndex
    ∧ (bcMax.create_candidate_block 5 "Alice" 0 0).1.index = 0
    ∧ blockMaxIndex.index + 1 ≠ 0 :=
  ⟨rfl, rfl, rfl, by decide⟩

/-- C6 as amended: `create_candidate_block` always returns a block whose
transaction list is a coinbase transaction with no inputs and the single
output `{ address := miner_address, value := 50 }` followed by the
first `min(pool size, transactions_count)` pool transactions in FIFO
order, whose index is the last accepted block's index plus one reduced
modulo `2^32` — the `u32` wrap of the source's `candidate_index + 1`,
equal to the plain successor whenever the last index is below
`u32::MAX` (so 1 on an empty chain) — and whose `previous_hash` is the
last accepted block's hash (empty on an empty chain). -/
theorem create_candidate_block_shape (bc : Blockchain) (transactions_count : Nat)
    (miner_address : String) (difficulty time : Nat) :
    (bc.create_candidate_block transactions_count miner_address difficulty time).1.transactions
        = { inputs := [], outputs := [{ address := miner_address, value := 50 }]
            timestamp := time }
          :: bc.transaction_pool.take (min bc.transaction_pool.length transactions_count)
      ∧ (bc.create_candidate_block transactions_count miner_address difficulty time).1.index
          = ((match bc.blocks.getLast? with
              | some latest_block => latest_block.index
              | none => 0) + 1) % 4294967296
      ∧ (bc.create_candidate_block transactions_count miner_address difficulty time).1.previous_hash
          = (match bc.blocks.getLast? with
             | some latest_block => latest_block.hash
             | none => []) :=
  ⟨rfl, rfl, rfl⟩

/-- C7: `create_candidate_block` removes exactly the first
`min(pool size, transactions_count)` transactions from the pool, leaving
the remaining transactions in their original order, and leaves `blocks`
and `unspent_output` unchanged. -/
theorem create_candidate_block_pool_frame (bc : Blockchain) (transactions_count : Nat)
    (miner_address : String) (difficulty time : Nat) :
    (bc.create_candidate_block transactions_count miner_address difficulty time).2.transaction_pool
        = bc.transaction_pool.drop (min bc.transaction_pool.length transactions_count)
      ∧ (bc.create_candidate_block transactions_count miner_address difficulty time).2.blocks
          = bc.blocks
      ∧ (bc.create_candidate_block transactions_count miner_address difficulty time).2.unspent_output
          = bc.unspent_output :=
  ⟨rfl, rfl, rfl⟩

/-- C8: validation order and error precedence of `verify_transaction` as
used by `add_transaction_to_pool`. A transaction whose output values sum
to more than its input values fails with `InsufficientFundsError`
regardless of its inputs; otherwise verification is the left-to-right
scan of the input hashes, in which a hash absent from `unspent_output`
fails with `InputNotSpendableError`, a present hash that is also
referenced by a pool transaction fails with `DoubleSpendingError`, a
hash passing both checks is skipped, and an exhausted list succeeds;
`add_transaction_to_pool` propagates the outcome unchanged. -/
theorem verify_transaction_error_precedence (bc : Blockchain) (t : Transaction) :
    ((t.inputs.map TxOutput.value).sum < (t.outputs.map TxOutput.value).sum →
      bc.verify_transaction t
        = Except.error
            (BlockChainError.InsufficientFundsError "Transaction output is grater than input."))
    ∧ ((t.outputs.map TxOutput.value).sum ≤ (t.inputs.map TxOutput.value).sum →
      bc.verify_transaction t = bc.check_input_hashes t.input_hashes)
    ∧ (∀ h rest, h ∉ bc.unspent_output →
      bc.check_input_hashes (h :: rest)
        = Except.error (BlockChainError.InputNotSpendableError "Input is not spendable."))
    ∧ (∀ h rest, h ∈ bc.unspent_output → h ∈ bc.pool_input_hashes →
      bc.check_input_hashes (h :: rest)
        = Except.error (BlockChainError.DoubleSpendingError "Double spending attempt."))
    ∧ (∀ h rest, h ∈ bc.unspent_output → h ∉ bc.pool_input_hashes →
      bc.check_input_hashes (h :: rest) = bc.check_input_hashes rest)
    ∧ bc.check_input_hashes [] = Except.ok ()
    ∧ (bc.verify_transaction t = Except.ok () → (bc.add_transaction_to_pool t).1 = Except.ok ())
    ∧ (∀ e, bc.verify_transaction t = Except.error e
        → (bc.add_transaction_to_pool t).1 = Except.error e) := by
  refine ⟨?_, ?_, ?_, ?_, ?_, rfl, ?_, ?_⟩
  · intro hlt
    have hsp : t.is_spendable = false := by
      simp [Transaction.is_spendable, not_le.mpr hlt]
    simp [Blockchain.verify_transaction, hsp]
  · intro hle
    have hsp : t.is_spendable = true := by
      simp [Transaction.is_spendable, hle]
    simp [Blockchain.verify_transaction, hsp]
  · intro h rest hout
    simp [Blockchain.check_input_hashes, hout]
  · intro h rest hin hpool
    simp [Blockchain.check_input_hashes, hin, hpool]
  · intro h rest hin hpool
    simp [Blockchain.check_input_hashes, hin, hpool]
  · intro hok
    simp [Blockchain.add_transaction_to_pool, hok]
  · intro e herr
    simp [Blockchain.add_transaction_to_pool, herr]

/-- C8 witness: in the initial state, a transaction creating value out
of nothing is refused as `InsufficientFundsError`. -/
theorem verify_transaction_error_precedence_witness :
    Blockchain.new.verify_transaction txInsuff
      = Except.error
          (BlockChainError.InsufficientFundsError "Transaction output is grater than input.") :=
  (verify_transaction_error_precedence Blockchain.new txInsuff).1
    (by with_unfolding_all decide)

/-- C9: when `add_transaction_to_pool` succeeds, the new state is the
old state with the transaction appended as the last element of the
pool; `blocks` and `unspent_output` are unchanged. -/
theorem add_transaction_success_appends (bc : Blockchain) (t : Transaction)
    (hok : (bc.add_transaction_to_pool t).1 = Except.ok ()) :
    (bc.add_transaction_to_pool t).2
      = { bc with transaction_pool := bc.transaction_pool ++ [t] } := by
  unfold Blockchain.add_transaction_to_pool at hok ⊢
  cases hv : bc.verify_transaction t with
  | error e => rw [hv] at hok; simp at hok
  | ok u => rfl

/-- C9 witness: the empty transaction passes verification and is
appended to the pool of the initial state. -/
theorem add_transaction_success_appends_witness :
    (Blockchain.new.add_transaction_to_pool txEmpty).2
      = { Blockchain.new with
          transaction_pool := Blockchain.new.transaction_pool ++ [txEmpty] } :=
  add_transaction_success_appends Blockchain.new txEmpty (by with_unfolding_all decide)

/-- C10: `aggregate_mined_block` on a block whose hash passes the
difficulty check but whose transaction list is empty returns `Ok(())`
while appending nothing: the whole state — and in particular the chain
length — is unchanged, so a successful return does not imply that the
chain grew. -/
theorem aggregate_empty_block_silent_success (bc : Blockchain) (block : Block)
    (htx : block.transactions = [])
    (hd : check_difficulty block.hash block.difficulty = true) :
    bc.aggregate_mined_block block = (Except.ok (), bc)
      ∧ (bc.aggregate_mined_block block).2.len = bc.len := by
  have hmain : bc.aggregate_mined_block block = (Except.ok (), bc) := by
    unfold Blockchain.aggregate_mined_block
    rw [htx, hd]
    simp
  exact ⟨hmain, by rw [hmain]⟩

/-- C10 witness: the empty-transaction block `blockEmptyTx` is reported
accepted from the initial state while nothing changes. -/
theorem aggregate_empty_block_silent_success_witness :
    Blockchain.new.aggregate_mined_block blockEmptyTx = (Except.ok (), Blockchain.new)
      ∧ (Blockchain.new.aggregate_mined_block blockEmptyTx).2.len = Blockchain.new.len :=
  aggregate_empty_block_silent_success Blockchain.new blockEmptyTx rfl
    (by with_unfolding_all decide)
